import Mathlib

/-!
# Verification of the button/switch edge-capture subsystem of `board_diag.c`

This file gives a shallow embedding of the core of the DE2-150 board
diagnostics program: the interrupt-driven edge-capture of button events and
the polling state machine (`TestButtons`) that consumes them, together with
arm/disarm lifecycle (`init_button_pio` / `disable_button_pio`), the
interrupt handler (`handle_button_interrupts`), and the console line reader
(`GetInputString`).  Machine integers are modelled as `Nat` (the bitmask
values involved are small and no arithmetic overflows) and stream characters
as `Int` (as `getc` returns `int`, with EOF = -1).
-/

namespace BoardDiag

/-- The constant `all_tested = 0xf` of `TestButtons`: the completion set with
all four line bits set. -/
def all_tested : Nat := 0xf

/-- The polling-context state of `TestButtons`: `buttons_tested` is the
bitmask of lines already confirmed pressed, `last_tested` the last observed
value of `edge_capture` (used to suppress reprocessing of an unchanged
value). -/
structure BState where
  buttons_tested : Nat
  last_tested : Nat
deriving DecidableEq, Repr

/-- The local variables of `TestButtons` right after `init_button_pio()`,
`buttons_tested = 0x0`, `edge_capture = 0`, `last_tested = 0xffff`
(lines 485-498 of `board_diag.c`). -/
def armBState : BState := { buttons_tested := 0, last_tested := 0xffff }

/-- One iteration of the `while` loop body of `TestButtons`
(lines 509-566 of `board_diag.c`), for one observed value of the volatile
`edge_capture` store.  Returns the updated state together with the
notification emitted (`some k` models the `printf("Button k ... Pressed")`
call, `none` no output).  The `continue` paths of the C code fall through
with no further mutation, so they are the plain returns here; note that
`last_tested = edge_capture` has already executed before the `switch`, so
even the already-tested and default paths keep the updated `last_tested`. -/
def testButtonsStep (s : BState) (edge_capture : Nat) : BState × Option Nat :=
  if s.last_tested = edge_capture then
    (s, none)
  else
    let s1 : BState := { buttons_tested := s.buttons_tested, last_tested := edge_capture }
    if edge_capture = 0x1 then
      if s.buttons_tested &&& 0x1 ≠ 0 then (s1, none)
      else ({ s1 with buttons_tested := s.buttons_tested ||| 0x1 }, some 1)
    else if edge_capture = 0x2 then
      if s.buttons_tested &&& 0x2 ≠ 0 then (s1, none)
      else ({ s1 with buttons_tested := s.buttons_tested ||| 0x2 }, some 2)
    else if edge_capture = 0x4 then
      if s.buttons_tested &&& 0x4 ≠ 0 then (s1, none)
      else ({ s1 with buttons_tested := s.buttons_tested ||| 0x4 }, some 3)
    else if edge_capture = 0x8 then
      if s.buttons_tested &&& 0x8 ≠ 0 then (s1, none)
      else ({ s1 with buttons_tested := s.buttons_tested ||| 0x8 }, some 4)
    else (s1, none)

/-- Run the polling loop body over a list of successive observed values of
the edge-capture store, collecting the emitted notifications in order. -/
def runSteps : BState → List Nat → BState × List Nat
  | s, [] => (s, [])
  | s, v :: rest =>
    match testButtonsStep s v with
    | (s2, none) => runSteps s2 rest
    | (s2, some k) =>
      let r := runSteps s2 rest
      (r.1, k :: r.2)

/-- The `while (buttons_tested != all_tested)` loop of `TestButtons` exits
exactly when this holds: the state machine is in its `Complete` state. -/
def buttonTestComplete (s : BState) : Prop := s.buttons_tested = all_tested

instance (s : BState) : Decidable (buttonTestComplete s) := by
  unfold buttonTestComplete; infer_instance

/-- The button PIO hardware registers touched by this subsystem, plus the
registration state kept by the HAL interrupt-dispatch facility:
`irq_mask` models `IOWR_ALTERA_AVALON_PIO_IRQ_MASK(BUTTON_PIO_BASE, ...)`,
`edge_cap_reg` the hardware edge-capture register, and `handler_registered`
whether `handle_button_interrupts` (rather than `NULL`) is the handler
currently registered for `BUTTON_PIO_IRQ`. -/
structure HWState where
  irq_mask : Nat
  edge_cap_reg : Nat
  handler_registered : Bool
deriving DecidableEq, Repr

/-- The whole program state relevant to the button subsystem: the hardware,
the volatile global `edge_capture` store shared between interrupt and
polling contexts, and the polling-context locals of `TestButtons`. -/
structure SysState where
  hw : HWState
  edge_capture : Nat
  bstate : BState
deriving DecidableEq, Repr

/-- `init_button_pio` (lines 419-444): enable all 4 button interrupts
(`IRQ_MASK := 0xf`), reset the hardware edge-capture register, and register
`handle_button_interrupts` with the interrupt dispatch facility. -/
def init_button_pio (s : SysState) : SysState :=
  { s with hw := { irq_mask := 0xf, edge_cap_reg := 0, handler_registered := true } }

/-- The arming prefix of `TestButtons` (lines 483-498): `init_button_pio()`
followed by `buttons_tested = 0x0`, `edge_capture = 0`,
`last_tested = 0xffff`. -/
def armButtons (s : SysState) : SysState :=
  let s1 := init_button_pio s
  { s1 with edge_capture := 0,
            bstate := { buttons_tested := 0x0, last_tested := 0xffff } }

/-- `disable_button_pio` (lines 448-459): disable interrupts from the button
PIO (`IRQ_MASK := 0x0`) and un-register the IRQ handler by passing a `NULL`
handler to the dispatch facility. -/
def disable_button_pio (s : SysState) : SysState :=
  { s with hw := { s.hw with irq_mask := 0, handler_registered := false } }

/-- `handle_button_interrupts` (lines 393-415): store the value of the
hardware edge-capture register into the `edge_capture` store pointed to by
`context`, clear the hardware register to zero, and perform one sacrificial
read of the register (which has no effect on any stored state, so it is a
no-op in this model). -/
def handle_button_interrupts (s : SysState) : SysState :=
  let v := s.hw.edge_cap_reg
  let s1 := { s with edge_capture := v }
  let s2 := { s1 with hw := { s1.hw with edge_cap_reg := 0 } }
  s2

/-- Modelled from the spec: the HAL interrupt-dispatch facility
(`alt_irq_register` / `alt_ic_isr_register` are not part of this
repository).  Per the external interface in the spec, `register_handler` /
`unregister_handler` determine whether an interrupt invokes the handler: an
interrupt firing invokes `handle_button_interrupts` only while it is the
registered handler; after `disable_button_pio` registered `NULL`, no further
invocations occur and the firing is dropped. -/
def dispatchButtonInterrupt (s : SysState) : SysState :=
  if s.hw.handler_registered then handle_button_interrupts s else s

/-- A concrete post-run state used to exercise teardown scenarios: the
hardware has latched a fresh edge (`edge_cap_reg = 1`) while the store still
holds 0. -/
def staleExample : SysState :=
  { hw := { irq_mask := 0xf, edge_cap_reg := 1, handler_registered := true },
    edge_capture := 0,
    bstate := { buttons_tested := 0xf, last_tested := 0x8 } }

/-- The `for` loop of `GetInputString` (lines 103-116).  The input stream is
a finite list of `int` characters; once it is exhausted, `getc` returns
EOF = -1 on every further call.  The result is the list of buffer writes
`entry[i] = ch` performed, as (index, character) pairs in order.  The loop
condition `(ch != 10) && (i < size)` tests the character read by the
previous iteration; a character equal to 13 is read but not stored and does
not advance `i`. -/
def giLoop (stream : List Int) (i : Nat) (size : Nat) (ch : Int) :
    List (Nat × Int) :=
  if h : ch ≠ 10 ∧ i < size then
    match stream with
    | [] => (i, -1) :: giLoop [] (i + 1) size (-1)
    | c :: rest =>
      if c ≠ 13 then (i, c) :: giLoop rest (i + 1) size c
      else giLoop rest i size c
  else []
termination_by (stream.length, size - i)
decreasing_by
  · exact Prod.Lex.right _ (by omega)
  · exact Prod.Lex.left _ _ (by simp)
  · exact Prod.Lex.left _ _ (by simp)

/-- `GetInputString(entry, size, stream)` (lines 103-116): the sequence of
writes into `entry` performed for the given stream, starting from `i = 0`
and `ch = 0`. -/
def GetInputString (size : Nat) (stream : List Int) : List (Nat × Int) :=
  giLoop stream 0 size 0

/-- The button number announced by `TestButtons` for each single-bit
edge-capture value: `0x1` is "Button 1 (SW0)", `0x2` "Button 2 (SW1)",
`0x4` "Button 3 (SW2)", `0x8` "Button 4 (SW3)". -/
def buttonNumber (v : Nat) : Nat :=
  if v = 0x1 then 1
  else if v = 0x2 then 2
  else if v = 0x4 then 3
  else if v = 0x8 then 4
  else 0

end BoardDiag

namespace BoardDiag

-- Helper lemmas about one polling step.

/-- Every branch of the loop body leaves `last_tested` equal to the observed
value (the suppressed branch trivially so). -/
theorem last_tested_after_step (s : BState) (v : Nat) :
    (testButtonsStep s v).1.last_tested = v := by
  unfold testButtonsStep
  split
  · exact (by assumption : s.last_tested = v)
  · repeat' split
    all_goals rfl

/-- One polling step either leaves `buttons_tested` unchanged or ORs in
exactly one of the four single-line bits. -/
theorem step_mask_cases (s : BState) (v : Nat) :
    (testButtonsStep s v).1.buttons_tested = s.buttons_tested ∨
    ∃ c, (c = 1 ∨ c = 2 ∨ c = 4 ∨ c = 8) ∧
      (testButtonsStep s v).1.buttons_tested = s.buttons_tested ||| c := by
  unfold testButtonsStep
  split
  · exact Or.inl rfl
  · split
    · split
      · exact Or.inl rfl
      · exact Or.inr ⟨1, Or.inl rfl, rfl⟩
    · split
      · split
        · exact Or.inl rfl
        · exact Or.inr ⟨2, Or.inr (Or.inl rfl), rfl⟩
      · split
        · split
          · exact Or.inl rfl
          · exact Or.inr ⟨4, Or.inr (Or.inr (Or.inl rfl)), rfl⟩
        · split
          · split
            · exact Or.inl rfl
            · exact Or.inr ⟨8, Or.inr (Or.inr (Or.inr rfl)), rfl⟩
          · exact Or.inl rfl

/-- Once `buttons_tested = 0xf`, no further observed value changes it. -/
theorem step_complete_stable (s : BState) (v : Nat)
    (h : s.buttons_tested = all_tested) :
    (testButtonsStep s v).1.buttons_tested = all_tested := by
  rcases step_mask_cases s v with hsame | ⟨c, hc, hor⟩
  · rw [hsame, h]
  · rw [hor, h]
    rcases hc with rfl | rfl | rfl | rfl <;> decide

/-- A suppressed step: when the observed value equals `last_tested`, the
loop body is a no-op. -/
theorem step_suppressed (s : BState) (v : Nat) (h : s.last_tested = v) :
    testButtonsStep s v = (s, none) := by
  unfold testButtonsStep
  rw [if_pos h]

/-- Unfolding `runSteps` on a cons whose first step emits no notification. -/
theorem runSteps_cons_none (s : BState) (v : Nat) (s2 : BState)
    (h : testButtonsStep s v = (s2, none)) (rest : List Nat) :
    runSteps s (v :: rest) = runSteps s2 rest := by
  simp only [runSteps, h]

/-- Unfolding `runSteps` on a cons whose first step emits notification `k`. -/
theorem runSteps_cons_some (s : BState) (v : Nat) (s2 : BState) (k : Nat)
    (h : testButtonsStep s v = (s2, some k)) (rest : List Nat) :
    runSteps s (v :: rest) = ((runSteps s2 rest).1, k :: (runSteps s2 rest).2) := by
  simp only [runSteps, h]

/-- Delivering an already-observed value any number of times in a row is
absorbed without any state change or notification. -/
theorem runSteps_absorb (e : Nat) : ∀ (m : Nat) (s : BState),
    s.last_tested = e → runSteps s (List.replicate m e) = (s, []) := by
  intro m
  induction m with
  | zero => intro s _; rfl
  | succ k ih =>
    intro s h
    rw [List.replicate_succ, runSteps_cons_none s e s (step_suppressed s e h)]
    exact ih s h

-- Claim theorems.

/-- C1: for N=4 lines, starting from a freshly armed state (TestedMask = 0,
LastObservedValue = the 0xffff sentinel), delivering the four single-bit
events 0x1, 0x2, 0x4, 0x8 to the polling state machine, each exactly once
and in any order, drives the state machine from Running to Complete (the
poll loop exits with TestedMask = 0xf), and after completion no further
event changes TestedMask. -/
theorem testButtons_completion (l : List Nat)
    (hperm : l.Perm [0x1, 0x2, 0x4, 0x8]) :
    ¬ buttonTestComplete armBState ∧
    buttonTestComplete (runSteps armBState l).1 ∧
    ∀ v : Nat,
      (testButtonsStep (runSteps armBState l).1 v).1.buttons_tested = all_tested := by
  have hmem : l ∈ List.permutations' [0x1, 0x2, 0x4, 0x8] :=
    List.mem_permutations'.mpr hperm
  have hall : ∀ x ∈ List.permutations' [0x1, 0x2, 0x4, 0x8],
      (runSteps armBState x).1.buttons_tested = all_tested := by decide
  have h1 := hall l hmem
  exact ⟨by decide, h1, fun v => step_complete_stable _ v h1⟩

/-- Witness for C1 at the concrete order `[0x2, 0x1, 0x8, 0x4]` and the
further event `0x1`. -/
theorem testButtons_completion_witness :
    List.Perm [0x2, 0x1, 0x8, 0x4] [0x1, 0x2, 0x4, 0x8] ∧
    buttonTestComplete (runSteps armBState [0x2, 0x1, 0x8, 0x4]).1 ∧
    (testButtonsStep (runSteps armBState [0x2, 0x1, 0x8, 0x4]).1
      0x1).1.buttons_tested = all_tested := by
  have hp : List.Perm [0x2, 0x1, 0x8, 0x4] [0x1, 0x2, 0x4, 0x8] := by decide
  have h := testButtons_completion [0x2, 0x1, 0x8, 0x4] hp
  exact ⟨hp, h.2.1, h.2.2 0x1⟩

/-- C3: delivering the single-bit event of a line K to the polling step
multiple times in sequence from a freshly armed state yields exactly one
"line K pressed" notification, and TestedMask holds exactly the bit of K;
moreover once the bit of a line is already set in TestedMask, a further
press of that line produces no notification and no TestedMask change. -/
theorem testButtons_idempotent (e : Nat)
    (he : e = 0x1 ∨ e = 0x2 ∨ e = 0x4 ∨ e = 0x8) (n : Nat) (hn : 1 ≤ n) :
    (runSteps armBState (List.replicate n e)).2 = [buttonNumber e] ∧
    (runSteps armBState (List.replicate n e)).1.buttons_tested = e ∧
    ∀ s : BState, s.buttons_tested &&& e ≠ 0 →
      (testButtonsStep s e).1.buttons_tested = s.buttons_tested ∧
      (testButtonsStep s e).2 = none := by
  obtain ⟨m, rfl⟩ : ∃ m, n = m + 1 := ⟨n - 1, by omega⟩
  have third : ∀ e : Nat, ∀ s : BState, s.buttons_tested &&& e ≠ 0 →
      (e = 0x1 ∨ e = 0x2 ∨ e = 0x4 ∨ e = 0x8) →
      (testButtonsStep s e).1.buttons_tested = s.buttons_tested ∧
      (testButtonsStep s e).2 = none := by
    intro e s hs he
    rcases he with rfl | rfl | rfl | rfl <;>
    · unfold testButtonsStep
      split
      · exact ⟨rfl, rfl⟩
      · simp [hs]
  rcases he with rfl | rfl | rfl | rfl
  · rw [List.replicate_succ,
      runSteps_cons_some armBState 0x1 ⟨0x1, 0x1⟩ 1 (by decide) (List.replicate m _),
      runSteps_absorb 0x1 m ⟨0x1, 0x1⟩ rfl]
    exact ⟨rfl, rfl, fun s hs => third 0x1 s hs (Or.inl rfl)⟩
  · rw [List.replicate_succ,
      runSteps_cons_some armBState 0x2 ⟨0x2, 0x2⟩ 2 (by decide) (List.replicate m _),
      runSteps_absorb 0x2 m ⟨0x2, 0x2⟩ rfl]
    exact ⟨rfl, rfl, fun s hs => third 0x2 s hs (Or.inr (Or.inl rfl))⟩
  · rw [List.replicate_succ,
      runSteps_cons_some armBState 0x4 ⟨0x4, 0x4⟩ 3 (by decide) (List.replicate m _),
      runSteps_absorb 0x4 m ⟨0x4, 0x4⟩ rfl]
    exact ⟨rfl, rfl, fun s hs => third 0x4 s hs (Or.inr (Or.inr (Or.inl rfl)))⟩
  · rw [List.replicate_succ,
      runSteps_cons_some armBState 0x8 ⟨0x8, 0x8⟩ 4 (by decide) (List.replicate m _),
      runSteps_absorb 0x8 m ⟨0x8, 0x8⟩ rfl]
    exact ⟨rfl, rfl, fun s hs => third 0x8 s hs (Or.inr (Or.inr (Or.inr rfl)))⟩

/-- Witness for C3 at line `0x1`, three repeated deliveries, and a state
that already has bit `0x1` set. -/
theorem testButtons_idempotent_witness :
    (runSteps armBState (List.replicate 3 0x1)).2 = [buttonNumber 0x1] ∧
    (runSteps armBState (List.replicate 3 0x1)).1.buttons_tested = 0x1 ∧
    (testButtonsStep ⟨0x1, 0x2⟩ 0x1).1.buttons_tested = 0x1 ∧
    (testButtonsStep ⟨0x1, 0x2⟩ 0x1).2 = none := by
  have h := testButtons_idempotent 0x1 (Or.inl rfl) 3 (by decide)
  have h3 := h.2.2 ⟨0x1, 0x2⟩ (by decide)
  exact ⟨h.1, h.2.1, h3.1, h3.2⟩

/-- C4: if the observed edge-capture value equals LastObservedValue, the
polling step returns with no state change and no notification; consequently
delivering the same value twice in a row produces exactly the notifications
of delivering it once (the second occurrence is suppressed), with the same
final state. -/
theorem testButtons_unchanged_suppressed (s : BState) (v : Nat) :
    (s.last_tested = v → testButtonsStep s v = (s, none)) ∧
    runSteps s [v, v] = runSteps s [v] := by
  refine ⟨step_suppressed s v, ?_⟩
  have hl := last_tested_after_step s v
  cases htb : testButtonsStep s v with
  | mk s2 o =>
    rw [htb] at hl
    have hstep2 : testButtonsStep s2 v = (s2, none) := step_suppressed s2 v hl
    cases o with
    | none =>
      rw [runSteps_cons_none s v s2 htb, runSteps_cons_none s2 v s2 hstep2,
        runSteps_cons_none s v s2 htb]
    | some k =>
      rw [runSteps_cons_some s v s2 k htb, runSteps_cons_some s v s2 k htb,
        runSteps_cons_none s2 v s2 hstep2]

/-- Witness for C4: the suppressed-step part at the armed state and the
sentinel value, and the double-delivery part at value `0x1`. -/
theorem testButtons_unchanged_suppressed_witness :
    testButtonsStep armBState 0xffff = (armBState, none) ∧
    runSteps armBState [0x1, 0x1] = runSteps armBState [0x1] :=
  ⟨(testButtons_unchanged_suppressed armBState 0xffff).1 rfl,
   (testButtons_unchanged_suppressed armBState 0x1).2⟩

/-- C5: an observed value that is not one of the exact single-bit patterns
0x1, 0x2, 0x4, 0x8 (e.g. the multi-bit value 0x3, or zero) produces no
notification and no TestedMask change, and conversely only those four
values can ever change TestedMask. -/
theorem testButtons_multibit_ignored (s : BState) (v : Nat)
    (hv : v ≠ 0x1 ∧ v ≠ 0x2 ∧ v ≠ 0x4 ∧ v ≠ 0x8) :
    ((testButtonsStep s v).1.buttons_tested = s.buttons_tested ∧
     (testButtonsStep s v).2 = none) ∧
    ∀ w : Nat, (testButtonsStep s w).1.buttons_tested ≠ s.buttons_tested →
      w = 0x1 ∨ w = 0x2 ∨ w = 0x4 ∨ w = 0x8 := by
  obtain ⟨h1, h2, h3, h4⟩ := hv
  constructor
  · unfold testButtonsStep
    split
    · exact ⟨rfl, rfl⟩
    · simp [h1, h2, h3, h4]
  · intro w hw
    by_contra hcon
    push_neg at hcon
    obtain ⟨g1, g2, g3, g4⟩ := hcon
    apply hw
    unfold testButtonsStep
    split
    · rfl
    · simp [g1, g2, g3, g4]

/-- Witness for C5 at the multi-bit value 0x3 and the fresh armed state. -/
theorem testButtons_multibit_ignored_witness :
    (testButtonsStep armBState 0x3).1.buttons_tested = armBState.buttons_tested ∧
    (testButtonsStep armBState 0x3).2 = none :=
  (testButtons_multibit_ignored armBState 0x3 (by decide)).1

/-- C6: from the freshly armed state, the event sequence
0x2, 0x2, 0x1, 0x8, 0x4 yields notifications for buttons 2, 1, 4, 3 in
exactly that order (the duplicate 0x2 suppressed), and leaves the state
machine Complete with TestedMask = 0xf. -/
theorem testButtons_scenario :
    (runSteps armBState [0x2, 0x2, 0x1, 0x8, 0x4]).2 = [2, 1, 4, 3] ∧
    (runSteps armBState [0x2, 0x2, 0x1, 0x8, 0x4]).1.buttons_tested = 0xf ∧
    buttonTestComplete (runSteps armBState [0x2, 0x2, 0x1, 0x8, 0x4]).1 := by
  decide

/-- C7: monotonicity of TestedMask — one polling step only ever ORs bits
into `buttons_tested`; a bit that is set stays set for every reachable state
and every observed value. -/
theorem testedMask_monotone (s : BState) (v : Nat) (i : Nat)
    (h : s.buttons_tested.testBit i = true) :
    ((testButtonsStep s v).1.buttons_tested).testBit i = true := by
  rcases step_mask_cases s v with hsame | ⟨c, _, hor⟩
  · rw [hsame]; exact h
  · rw [hor, Nat.testBit_lor, h]
    rfl

/-- Witness for C7: bit 2 of a state with mask 0x5 survives a press of
line 0x2. -/
theorem testedMask_monotone_witness :
    (0x5 : Nat).testBit 2 = true ∧
    ((testButtonsStep ⟨0x5, 0x1⟩ 0x2).1.buttons_tested).testBit 2 = true :=
  ⟨by decide, testedMask_monotone ⟨0x5, 0x1⟩ 0x2 2 (by decide)⟩

/-- C8: postcondition of arming — after `init_button_pio()` and the
initializations at the top of `TestButtons` the Edge Capture Store is zero,
TestedMask is zero, LastObservedValue holds the sentinel 0xffff which lies
strictly outside the valid range of 4-line events (all of which are at most
`all_tested = 0xf`), the hardware interrupt mask enables all four lines
(0xf), the hardware edge-capture register is cleared, and the handler is
registered. -/
theorem armButtons_post (s : SysState) :
    (armButtons s).edge_capture = 0 ∧
    (armButtons s).bstate.buttons_tested = 0 ∧
    (armButtons s).bstate.last_tested = 0xffff ∧
    all_tested < (armButtons s).bstate.last_tested ∧
    (armButtons s).hw.irq_mask = 0xf ∧
    (armButtons s).hw.edge_cap_reg = 0 ∧
    (armButtons s).hw.handler_registered = true :=
  ⟨rfl, rfl, rfl, (by decide : all_tested < 0xffff), rfl, rfl, rfl⟩

/-- C9: on each invocation the interrupt handler copies the hardware
edge-capture register into the Edge Capture Store and clears the hardware
register to zero, and it changes nothing else: the polling-context state
(TestedMask and LastObservedValue), the interrupt mask, and the registration
state are untouched (the final sacrificial hardware read has no effect on
any stored state). -/
theorem handler_frame (s : SysState) :
    (handle_button_interrupts s).edge_capture = s.hw.edge_cap_reg ∧
    (handle_button_interrupts s).hw.edge_cap_reg = 0 ∧
    (handle_button_interrupts s).bstate = s.bstate ∧
    (handle_button_interrupts s).hw.irq_mask = s.hw.irq_mask ∧
    (handle_button_interrupts s).hw.handler_registered = s.hw.handler_registered :=
  ⟨rfl, rfl, rfl, rfl, rfl⟩

/-- Counterexample for C2: `handle_button_interrupts` contains no armed or
still-registered check.  In the disarmed state obtained from
`staleExample` (handler unregistered, mask cleared, a fresh edge latched in
the hardware register), invoking the handler body — as a stale registration
would — mutates the Edge Capture Store. -/
theorem handler_no_armed_check_cex :
    (disable_button_pio staleExample).hw.handler_registered = false ∧
    (handle_button_interrupts (disable_button_pio staleExample)).edge_capture ≠
      (disable_button_pio staleExample).edge_capture := by
  decide

/-- C2 (amended): after `disable_button_pio()` a late interrupt firing is
dropped by the interrupt-dispatch facility — the handler registration was
replaced by `NULL` and the interrupt mask cleared — so dispatching an
interrupt after disarm changes nothing, in particular it does not mutate
the Edge Capture Store; the protection comes from unregistration, not from
any armed check inside the handler (which performs none). -/
theorem disarm_teardown_safety (s : SysState) :
    dispatchButtonInterrupt (disable_button_pio s) = disable_button_pio s ∧
    (dispatchButtonInterrupt (disable_button_pio s)).edge_capture =
      (disable_button_pio s).edge_capture ∧
    (disable_button_pio s).hw.irq_mask = 0 ∧
    (disable_button_pio s).hw.handler_registered = false := by
  have h : dispatchButtonInterrupt (disable_button_pio s) = disable_button_pio s := by
    unfold dispatchButtonInterrupt disable_button_pio
    simp
  exact ⟨h, by rw [h], rfl, rfl⟩

-- Unfolding equations and invariants for the GetInputString loop.

/-- Loop unfolding: stream exhausted, loop still running — `getc` returns
EOF = -1, which is stored. -/
theorem giLoop_eq_nil_cons (i size : Nat) (ch : Int) (h : ch ≠ 10 ∧ i < size) :
    giLoop [] i size ch = (i, -1) :: giLoop [] (i + 1) size (-1) := by
  rw [giLoop.eq_def, dif_pos h]

/-- Loop unfolding: a non-carriage-return character is read and stored. -/
theorem giLoop_eq_store (c : Int) (rest : List Int) (i size : Nat) (ch : Int)
    (h : ch ≠ 10 ∧ i < size) (hc : c ≠ 13) :
    giLoop (c :: rest) i size ch = (i, c) :: giLoop rest (i + 1) size c := by
  rw [giLoop.eq_def, dif_pos h]
  exact if_pos hc

/-- Loop unfolding: a carriage return is read, discarded, and `i` does not
advance. -/
theorem giLoop_eq_skip (c : Int) (rest : List Int) (i size : Nat) (ch : Int)
    (h : ch ≠ 10 ∧ i < size) (hc : ¬ c ≠ 13) :
    giLoop (c :: rest) i size ch = giLoop rest i size c := by
  rw [giLoop.eq_def, dif_pos h]
  exact if_neg hc

/-- Loop unfolding: the loop condition fails and no write happens. -/
theorem giLoop_eq_exit (stream : List Int) (i size : Nat) (ch : Int)
    (h : ¬ (ch ≠ 10 ∧ i < size)) :
    giLoop stream i size ch = [] := by
  rw [giLoop.eq_def, dif_neg h]

/-- Every write of the loop lands at an index in `[i, size)` and never
stores a carriage return. -/
theorem giLoop_mem (stream : List Int) (i size : Nat) (ch : Int) :
    ∀ p ∈ giLoop stream i size ch, (i ≤ p.1 ∧ p.1 < size) ∧ p.2 ≠ 13 := by
  induction stream, i, size, ch using giLoop.induct with
  | case1 i size ch h ih =>
    rw [giLoop_eq_nil_cons i size ch h]
    intro p hp
    rcases List.mem_cons.mp hp with rfl | hp
    · exact ⟨⟨Nat.le_refl i, h.2⟩, (by decide : (-1 : Int) ≠ 13)⟩
    · obtain ⟨⟨h1, h2⟩, h3⟩ := ih p hp
      exact ⟨⟨by omega, h2⟩, h3⟩
  | case2 i size ch h c rest hc ih =>
    rw [giLoop_eq_store c rest i size ch h hc]
    intro p hp
    rcases List.mem_cons.mp hp with rfl | hp
    · exact ⟨⟨Nat.le_refl i, h.2⟩, hc⟩
    · obtain ⟨⟨h1, h2⟩, h3⟩ := ih p hp
      exact ⟨⟨by omega, h2⟩, h3⟩
  | case3 i size ch h c rest hc ih =>
    rw [giLoop_eq_skip c rest i size ch h hc]
    exact ih
  | case4 stream i size ch h =>
    rw [giLoop_eq_exit stream i size ch h]
    intro p hp
    simp at hp

/-- The loop performs at most `size - i` writes. -/
theorem giLoop_length (stream : List Int) (i size : Nat) (ch : Int) :
    (giLoop stream i size ch).length ≤ size - i := by
  induction stream, i, size, ch using giLoop.induct with
  | case1 i size ch h ih =>
    rw [giLoop_eq_nil_cons i size ch h]
    have h2 := h.2
    simp only [List.length_cons]
    omega
  | case2 i size ch h c rest hc ih =>
    rw [giLoop_eq_store c rest i size ch h hc]
    have h2 := h.2
    simp only [List.length_cons]
    omega
  | case3 i size ch h c rest hc ih =>
    rw [giLoop_eq_skip c rest i size ch h hc]
    exact ih
  | case4 stream i size ch h =>
    rw [giLoop_eq_exit stream i size ch h]
    simp

/-- While the loop is running it stores at least one character, and it stops
only by filling the buffer or right after storing a newline. -/
theorem giLoop_exit (stream : List Int) (i size : Nat) (ch : Int) :
    ch ≠ 10 → i < size →
    giLoop stream i size ch ≠ [] ∧
    (i + (giLoop stream i size ch).length = size ∨
      ∃ p, (giLoop stream i size ch).getLast? = some p ∧ p.2 = 10) := by
  induction stream, i, size, ch using giLoop.induct with
  | case1 i size ch h ih =>
    intro hch hi
    rw [giLoop_eq_nil_cons i size ch h]
    refine ⟨by simp, ?_⟩
    by_cases hsz : i + 1 < size
    · obtain ⟨hne, hd⟩ := ih (by decide) hsz
      rcases hd with hlen | ⟨p, hl, hp⟩
      · left
        simp only [List.length_cons]
        omega
      · right
        refine ⟨p, ?_, hp⟩
        cases htail : giLoop [] (i + 1) size (-1) with
        | nil => exact absurd htail hne
        | cons q ts =>
          rw [htail] at hl
          rw [List.getLast?_cons_cons]
          exact hl
    · have ht : giLoop [] (i + 1) size (-1) = [] :=
        giLoop_eq_exit _ _ _ _ (by omega)
      left
      rw [ht]
      simp only [List.length_cons, List.length_nil]
      omega
  | case2 i size ch h c rest hc ih =>
    intro hch hi
    rw [giLoop_eq_store c rest i size ch h hc]
    refine ⟨by simp, ?_⟩
    by_cases hc10 : c = 10
    · have ht : giLoop rest (i + 1) size c = [] :=
        giLoop_eq_exit _ _ _ _ (by simp [hc10])
      right
      rw [ht]
      exact ⟨(i, c), rfl, hc10⟩
    · by_cases hsz : i + 1 < size
      · obtain ⟨hne, hd⟩ := ih hc10 hsz
        rcases hd with hlen | ⟨p, hl, hp⟩
        · left
          simp only [List.length_cons]
          omega
        · right
          refine ⟨p, ?_, hp⟩
          cases htail : giLoop rest (i + 1) size c with
          | nil => exact absurd htail hne
          | cons q ts =>
            rw [htail] at hl
            rw [List.getLast?_cons_cons]
            exact hl
      · have ht : giLoop rest (i + 1) size c = [] :=
          giLoop_eq_exit _ _ _ _ (by omega)
        left
        rw [ht]
        simp only [List.length_cons, List.length_nil]
        omega
  | case3 i size ch h c rest hc ih =>
    intro hch hi
    rw [giLoop_eq_skip c rest i size ch h hc]
    have hc13 : c = 13 := not_not.mp hc
    exact ih (by simp [hc13]) hi
  | case4 stream i size ch h =>
    intro hch hi
    exact absurd ⟨hch, hi⟩ h

/-- A stored newline is always the last write of the loop. -/
theorem giLoop_newline_last (stream : List Int) (i size : Nat) (ch : Int) :
    ∀ pre p post, giLoop stream i size ch = pre ++ p :: post →
      p.2 = 10 → post = [] := by
  induction stream, i, size, ch using giLoop.induct with
  | case1 i size ch h ih =>
    intro pre p post heq hp
    rw [giLoop_eq_nil_cons i size ch h] at heq
    cases pre with
    | nil =>
      injection heq with h1 h2
      rw [← h1] at hp
      simp at hp
    | cons b pre2 =>
      injection heq with h1 h2
      exact ih pre2 p post h2 hp
  | case2 i size ch h c rest hc ih =>
    intro pre p post heq hp
    rw [giLoop_eq_store c rest i size ch h hc] at heq
    cases pre with
    | nil =>
      injection heq with h1 h2
      have hc10 : c = 10 := by rw [← h1] at hp; exact hp
      have ht : giLoop rest (i + 1) size c = [] :=
        giLoop_eq_exit _ _ _ _ (by simp [hc10])
      rw [ht] at h2
      exact h2.symm
    | cons b pre2 =>
      injection heq with h1 h2
      exact ih pre2 p post h2 hp
  | case3 i size ch h c rest hc ih =>
    intro pre p post heq hp
    rw [giLoop_eq_skip c rest i size ch h hc] at heq
    exact ih pre p post heq hp
  | case4 stream i size ch h =>
    intro pre p post heq hp
    rw [giLoop_eq_exit stream i size ch h] at heq
    exact absurd heq.symm (List.append_ne_nil_of_right_ne_nil pre (by simp))

/-- C10: every call of `GetInputString` with a buffer of `size` characters
writes only at indices 0 through size-1 of the buffer, stores at most
`size` characters, never stores a carriage return (13), and returns after
storing a newline (10) or after `size` characters have been stored,
whichever comes first: either the buffer is filled, or the last stored
character is the newline, and nothing is ever stored after a newline. -/
theorem GetInputString_safe (size : Nat) (stream : List Int) :
    (∀ p ∈ GetInputString size stream, p.1 < size ∧ p.2 ≠ 13) ∧
    (GetInputString size stream).length ≤ size ∧
    ((GetInputString size stream).length = size ∨
      ∃ p, (GetInputString size stream).getLast? = some p ∧ p.2 = 10) ∧
    (∀ pre p post, GetInputString size stream = pre ++ p :: post →
      p.2 = 10 → post = []) := by
  simp only [GetInputString]
  refine ⟨?_, ?_, ?_, ?_⟩
  · intro p hp
    obtain ⟨⟨h1, h2⟩, h3⟩ := giLoop_mem stream 0 size 0 p hp
    exact ⟨h2, h3⟩
  · have h := giLoop_length stream 0 size 0
    omega
  · by_cases hsz : 0 < size
    · obtain ⟨hne, hd⟩ := giLoop_exit stream 0 size 0 (by decide) hsz
      rcases hd with h | h
      · left; omega
      · right; exact h
    · left
      have h := giLoop_length stream 0 size 0
      omega
  · exact giLoop_newline_last stream 0 size 0

end BoardDiag
